import Mathlib

/-!
Shallow embedding of the document-editing core of `helix-core`
(`text_size/range.rs`, `text_range.rs`, `change.rs`, `marked_range.rs`).

Text offsets are `u32` in the source; we model them as `Nat` and make the
`u32` conversion / overflow checks explicit against `u32Bound = 2^32` where
the source performs them.  A Rust panic (a failed `assert!`, `unwrap`, or an
out-of-bounds rope operation) is modelled as `Option.none`; every function
that can panic returns an `Option`.  A rope is modelled as a `List Char`
addressed by code-point index, and the `Tendril` payload of a change as a
`List Char` whose `length` stands for the payload length used by the source.
-/

namespace Helix

/-- `2^32`: the first value a `u32` cannot hold. -/
def u32Bound : Nat := 4294967296

/-- `TextRange` of `text_size/range.rs` / `text_range.rs`: a half-open span
`[start, end)`.  The source keeps the invariant `start <= end` by checking it
in `TextRange::new`; the raw structure itself is unchecked, exactly as in the
source. -/
structure TextRange where
  start : Nat
  «end» : Nat
deriving DecidableEq

/-- The documented invariant of `TextRange` (`// Invariant: start <= end`). -/
abbrev TextRange.valid (r : TextRange) : Prop := r.start ≤ r.«end»

/-- `TextRange::new(start, end)`: converts both offsets to `u32`
(`try_into().unwrap()`, a panic at `2^32` and above) and asserts
`start <= end`. -/
def TextRange.new (s e : Nat) : Option TextRange :=
  if s < u32Bound ∧ e < u32Bound ∧ s ≤ e then some ⟨s, e⟩ else none

/-- `TextRange::at(offset, len)` = `new(offset, offset + len)`. -/
def TextRange.«at» (offset len : Nat) : Option TextRange :=
  TextRange.new offset (offset + len)

/-- `TextRange::empty(offset)` = `new(offset, offset)`. -/
def TextRange.empty (offset : Nat) : Option TextRange :=
  TextRange.new offset offset

/-- `TextRange::up_to(end)` = `new(0, end)`. -/
def TextRange.up_to (e : Nat) : Option TextRange :=
  TextRange.new 0 e

/-- `TextRange::len()` = `end - start` (`u32` subtraction; the source only
evaluates it on ranges satisfying the invariant). -/
def TextRange.len (r : TextRange) : Nat := r.«end» - r.start

/-- `TextRange::is_empty()`. -/
def TextRange.is_empty (r : TextRange) : Bool := r.start == r.«end»

/-- `TextRange::contains(offset)`, end-exclusive. -/
def TextRange.contains (r : TextRange) (offset : Nat) : Bool :=
  decide (r.start ≤ offset ∧ offset < r.«end»)

/-- `TextRange::contains_inclusive(offset)`. -/
def TextRange.contains_inclusive (r : TextRange) (offset : Nat) : Bool :=
  decide (r.start ≤ offset ∧ offset ≤ r.«end»)

/-- `TextRange::contains_range(other)`. -/
def TextRange.contains_range (r other : TextRange) : Bool :=
  decide (r.start ≤ other.start ∧ other.«end» ≤ r.«end»)

/-- `TextRange::intersect(other)`: `None` when `min end < max start`, else
the common span built through `TextRange::new`. -/
def TextRange.intersect (a b : TextRange) : Option TextRange :=
  let s := max a.start b.start
  let e := min a.«end» b.«end»
  if e < s then none else TextRange.new s e

/-- `TextRange::cover(other)`: the smallest range containing both, built
through `TextRange::new`. -/
def TextRange.cover (a b : TextRange) : Option TextRange :=
  TextRange.new (min a.start b.start) (max a.«end» b.«end»)

/-- `TextRange::cover_offset(offset)` = `cover(empty(offset))`. -/
def TextRange.cover_offset (r : TextRange) (offset : Nat) : Option TextRange :=
  (TextRange.empty offset).bind fun e => r.cover e

/-- `u32::checked_add`. -/
def checkedAddU32 (a b : Nat) : Option Nat :=
  if a + b < u32Bound then some (a + b) else none

/-- `u32::checked_sub`. -/
def checkedSubU32 (a b : Nat) : Option Nat :=
  if b ≤ a then some (a - b) else none

/-- `TextRange::checked_add(offset)`: shifts both endpoints with checked
`u32` addition and builds the structure directly (no `new`, as in the
source). -/
def TextRange.checked_add (r : TextRange) (offset : Nat) : Option TextRange :=
  match checkedAddU32 r.start offset, checkedAddU32 r.«end» offset with
  | some s, some e => some ⟨s, e⟩
  | _, _ => none

/-- `TextRange::checked_sub(offset)`. -/
def TextRange.checked_sub (r : TextRange) (offset : Nat) : Option TextRange :=
  match checkedSubU32 r.start offset, checkedSubU32 r.«end» offset with
  | some s, some e => some ⟨s, e⟩
  | _, _ => none

/-- `TextRange::ordering(other)` (identical in both range files). -/
def TextRange.ordering (a b : TextRange) : Ordering :=
  if a.«end» ≤ b.start then .lt
  else if b.«end» ≤ a.start then .gt
  else .eq

/-- `impl From<(usize, usize)> for TextRange` (`text_range.rs`): goes through
`TextRange::new`, hence checked. -/
def TextRange.fromPair (s e : Nat) : Option TextRange :=
  TextRange.new s e

/-- `impl<T> From<ops::Range<T>> for TextRange` (`text_size/range.rs`):
builds the structure directly from the endpoints, with no check at all. -/
def TextRange.fromRange (s e : Nat) : TextRange := ⟨s, e⟩

theorem TextRange.new_eq_some {s e : Nat} {r : TextRange} :
    TextRange.new s e = some r ↔
      (s < u32Bound ∧ e < u32Bound ∧ s ≤ e) ∧ r = ⟨s, e⟩ := by
  unfold TextRange.new
  split
  · simp only [Option.some.injEq]
    constructor
    · intro h; exact ⟨by assumption, h.symm⟩
    · intro h; exact h.2.symm
  · simp only [reduceCtorEq, false_iff, not_and]
    intro h; exact absurd h (by assumption)

theorem TextRange.new_some_valid {s e : Nat} {r : TextRange} :
    TextRange.new s e = some r → r.valid := by
  intro h
  obtain ⟨⟨_, _, hle⟩, rfl⟩ := TextRange.new_eq_some.mp h
  exact hle

/-- C5: the claim reads `ordering` as Equal exactly on overlapping ranges
with containment counted as overlap; but a range and an empty range sitting
at its start compare Greater, not Equal, even though the former contains the
latter (this is the source's own doc example at `range.rs:332-334`). -/
theorem C5_contained_empty_range_not_equal :
    TextRange.contains_range ⟨2, 3⟩ ⟨2, 2⟩ = true ∧
    TextRange.ordering ⟨2, 3⟩ ⟨2, 2⟩ = Ordering.gt := by
  constructor <;> rfl

/-- C5 (amended): `ordering a b` is `Equal` iff `b.start < a.end` and
`a.start < b.end` (overlap, except that an empty range lying exactly at the
other range's start or end does not count); it is `Less` iff
`a.end ≤ b.start`, and `Greater` iff `b.end ≤ a.start` with
`b.start < a.end`. -/
theorem C5_ordering_characterization (a b : TextRange) :
    (TextRange.ordering a b = Ordering.eq ↔
      (b.start < a.«end» ∧ a.start < b.«end»)) ∧
    (TextRange.ordering a b = Ordering.lt ↔ a.«end» ≤ b.start) ∧
    (TextRange.ordering a b = Ordering.gt ↔
      (b.«end» ≤ a.start ∧ b.start < a.«end»)) := by
  unfold TextRange.ordering
  split_ifs with h1 h2 <;>
    refine ⟨?_, ?_, ?_⟩ <;> simp only [reduceCtorEq, false_iff, true_iff,
      iff_true, iff_false, not_and, not_lt, not_le] <;> omega

/-- C6: `intersect` returns `none` exactly when `max start > min end`;
touching ranges like `[5,10)` and `[10,15)` intersect in the empty range
`[10,10)`, non-touching disjoint ranges give `none`, and otherwise the
result is the common span `[max start, min end)`. -/
theorem C6_intersect_characterization (a b : TextRange) :
    (a.start < u32Bound → b.start < u32Bound →
      min a.«end» b.«end» < u32Bound →
        ((TextRange.intersect a b = none ↔
            min a.«end» b.«end» < max a.start b.start) ∧
         (¬ min a.«end» b.«end» < max a.start b.start →
            TextRange.intersect a b =
              some ⟨max a.start b.start, min a.«end» b.«end»⟩))) ∧
    TextRange.intersect ⟨5, 10⟩ ⟨10, 15⟩ = some ⟨10, 10⟩ ∧
    TextRange.intersect ⟨0, 5⟩ ⟨7, 9⟩ = none := by
  refine ⟨?_, by rfl, by rfl⟩
  intro ha hb he
  unfold TextRange.intersect TextRange.new
  dsimp only
  split_ifs with h1 h2
  · exact ⟨iff_of_true rfl h1, fun hn => absurd h1 hn⟩
  · refine ⟨?_, fun _ => rfl⟩
    simp only [reduceCtorEq, false_iff, not_lt]
    omega
  · exact absurd ⟨by omega, he, by omega⟩ h2

/-- C9: the claim says every public operation, the conversion from standard
ranges included, yields a range with `start ≤ end`; but
`impl From<ops::Range<T>> for TextRange` in `text_size/range.rs` copies the
endpoints with no check, so converting the standard range `4..2` yields
`TextRange { start: 4, end: 2 }` without failing. -/
theorem C9_fromRange_unchecked :
    TextRange.fromRange 4 2 = ⟨4, 2⟩ ∧
    ¬ (TextRange.fromRange 4 2).valid := by
  exact ⟨rfl, by decide⟩

/-- C9 (amended): the constructors `new`/`at`/`empty`/`up_to`, `intersect`,
`cover`, `cover_offset` and the conversion from pairs only ever yield ranges
with `start ≤ end`; `checked_add`/`checked_sub` preserve the invariant;
`TextRange::new(4, 2)` fails fatally; the conversion from standard ranges
(`text_size/range.rs`) copies the endpoints unchecked, so it satisfies the
invariant only when the given range is itself ordered. -/
theorem C9_invariant_preservation :
    (∀ (s e : Nat) (r : TextRange), TextRange.new s e = some r → r.valid) ∧
    (∀ (o l : Nat) (r : TextRange), TextRange.«at» o l = some r → r.valid) ∧
    (∀ (o : Nat) (r : TextRange), TextRange.empty o = some r → r.valid) ∧
    (∀ (e : Nat) (r : TextRange), TextRange.up_to e = some r → r.valid) ∧
    (∀ (a b r : TextRange), TextRange.intersect a b = some r → r.valid) ∧
    (∀ (a b r : TextRange), TextRange.cover a b = some r → r.valid) ∧
    (∀ (a : TextRange) (o : Nat) (r : TextRange),
      TextRange.cover_offset a o = some r → r.valid) ∧
    (∀ (a : TextRange) (o : Nat) (r : TextRange),
      a.valid → TextRange.checked_add a o = some r → r.valid) ∧
    (∀ (a : TextRange) (o : Nat) (r : TextRange),
      a.valid → TextRange.checked_sub a o = some r → r.valid) ∧
    (∀ (s e : Nat) (r : TextRange), TextRange.fromPair s e = some r → r.valid) ∧
    (∀ s e : Nat, s ≤ e → (TextRange.fromRange s e).valid) ∧
    TextRange.new 4 2 = none := by
  refine ⟨fun s e r => TextRange.new_some_valid,
          fun o l r => TextRange.new_some_valid,
          fun o r => TextRange.new_some_valid,
          fun e r => TextRange.new_some_valid,
          ?_, fun a b r => TextRange.new_some_valid, ?_, ?_, ?_,
          fun s e r => TextRange.new_some_valid,
          fun s e h => h, by decide⟩
  · intro a b r h
    unfold TextRange.intersect at h
    dsimp only at h
    split_ifs at h with h1
    exact TextRange.new_some_valid h
  · intro a o r h
    unfold TextRange.cover_offset at h
    rw [Option.bind_eq_some] at h
    obtain ⟨x, _, hc⟩ := h
    exact TextRange.new_some_valid hc
  · intro a o r hv h
    unfold TextRange.checked_add checkedAddU32 at h
    split_ifs at h with h1 h2
    simp only [Option.some.injEq] at h
    subst h
    exact Nat.add_le_add_right hv o
  · intro a o r hv h
    unfold TextRange.checked_sub checkedSubU32 at h
    split_ifs at h with h1 h2
    simp only [Option.some.injEq] at h
    subst h
    exact Nat.sub_le_sub_right hv o

/-- `Change` of `change.rs`: replace the text spanning `delete` with
`insert`. -/
structure Change where
  delete : TextRange
  insert : List Char
deriving DecidableEq

/-- `Change::apply(text)`: `text.remove(delete)` — a panic when the span is
malformed or runs past the end of the rope — then
`text.insert(delete.start(), insert)`. -/
def Change.apply (c : Change) (text : List Char) : Option (List Char) :=
  if c.delete.start ≤ c.delete.«end» ∧ c.delete.«end» ≤ text.length then
    let removed := text.take c.delete.start ++ text.drop c.delete.«end»
    some (removed.take c.delete.start ++ c.insert ++ removed.drop c.delete.start)
  else none

/-- `Change::add_offset(offset)`: both endpoints of `delete` shifted by the
signed `offset`, rebuilt with `try_into().unwrap()` (a panic when a shifted
endpoint is negative; the `2^32` bound is checked inside `TextRange::new`). -/
def Change.add_offset (c : Change) (offset : Int) : Option Change :=
  if 0 ≤ (c.delete.start : Int) + offset ∧ 0 ≤ (c.delete.«end» : Int) + offset then
    (TextRange.new ((c.delete.start : Int) + offset).toNat
        ((c.delete.«end» : Int) + offset).toNat).map
      fun r => { delete := r, insert := c.insert }
  else none

/-- `Change::offset()`: `insert.len() as i64 - delete.len() as i64`. -/
def Change.offset (c : Change) : Int :=
  (c.insert.length : Int) - (c.delete.len : Int)

/-- `Change::invert(original_text)`: the inverse's `insert` is the text this
change deletes, sliced from `original_text` at `delete` (a panic when out of
bounds); the inverse's `delete` is `TextRange::new(self.delete.start(),
self.insert.len())` — exactly as the source writes it. -/
def Change.invert (c : Change) (original_text : List Char) : Option Change :=
  if c.delete.start ≤ c.delete.«end» ∧ c.delete.«end» ≤ original_text.length then
    (TextRange.new c.delete.start c.insert.length).map
      fun d =>
        { delete := d
          insert := (original_text.take c.delete.«end»).drop c.delete.start }
  else none

/-- C1: applying a change and then the `invert` computed from the pre-apply
buffer does NOT reproduce the buffer.  On `"hello"` with the change
`delete [1,2), insert "XY"`, apply gives `"hXYllo"`, the inverse is
`delete [1,2), insert "e"` (the end of its delete span is `insert.len()`,
not `start + insert.len()`), and applying it yields `"heYllo"`. -/
theorem C1_invert_roundtrip_fails :
    Change.apply ⟨⟨1, 2⟩, "XY".toList⟩ "hello".toList = some "hXYllo".toList ∧
    Change.invert ⟨⟨1, 2⟩, "XY".toList⟩ "hello".toList =
      some ⟨⟨1, 2⟩, "e".toList⟩ ∧
    (Option.bind (Change.invert ⟨⟨1, 2⟩, "XY".toList⟩ "hello".toList)
        fun inv => inv.apply "hXYllo".toList) = some "heYllo".toList ∧
    "heYllo".toList ≠ "hello".toList := by
  refine ⟨by decide, by decide, by decide, by decide⟩

/-- C2: `invert` slices the deleted text correctly, but its `delete` span is
`TextRange::new(start, insert.len())`, not
`[start, start + insert.len())`: on `"hello"` with `delete [1,2),
insert "XY"` the inverse's span is `[1,2)` where the claim requires `[1,3)`;
and with `delete [5,6), insert "   "` on `"hello world!"` the construction
panics outright (`TextRange::new(5, 3)`). -/
theorem C2_invert_delete_span_wrong :
    Change.invert ⟨⟨1, 2⟩, "XY".toList⟩ "hello".toList =
      some ⟨⟨1, 2⟩, "e".toList⟩ ∧
    (⟨1, 2⟩ : TextRange) ≠ ⟨1, 1 + ("XY".toList).length⟩ ∧
    Change.invert ⟨⟨5, 6⟩, "   ".toList⟩ "hello world!".toList = none := by
  refine ⟨by decide, by decide, by decide⟩

/-- C10: `add_offset` only re-anchors the delete span: when the shift stays
within bounds the result keeps the insert payload, shifts both endpoints by
`d`, preserves the span length and hence preserves `offset()`. -/
theorem C10_add_offset_frame (c : Change) (d : Int)
    (hv : c.delete.start ≤ c.delete.«end»)
    (h0 : 0 ≤ (c.delete.start : Int) + d)
    (hB : (c.delete.«end» : Int) + d < (u32Bound : Int)) :
    ∃ c' : Change, c.add_offset d = some c' ∧
      c'.insert = c.insert ∧
      (c'.delete.start : Int) = (c.delete.start : Int) + d ∧
      (c'.delete.«end» : Int) = (c.delete.«end» : Int) + d ∧
      c'.delete.len = c.delete.len ∧
      c'.offset = c.offset := by
  have hB' : (c.delete.«end» : Int) + d < 4294967296 := by
    unfold u32Bound at hB; exact_mod_cast hB
  have he0 : 0 ≤ (c.delete.«end» : Int) + d := by omega
  refine ⟨⟨⟨((c.delete.start : Int) + d).toNat,
            ((c.delete.«end» : Int) + d).toNat⟩, c.insert⟩, ?_, rfl, ?_, ?_, ?_, ?_⟩
  · unfold Change.add_offset
    rw [if_pos ⟨h0, he0⟩]
    unfold TextRange.new u32Bound
    rw [if_pos (by omega)]
    rfl
  · exact Int.toNat_of_nonneg h0
  · exact Int.toNat_of_nonneg he0
  · unfold TextRange.len
    dsimp only
    omega
  · unfold Change.offset TextRange.len
    dsimp only
    omega

/-- C10 witness: the frame property at the concrete change
`delete [5,6), insert "ab"` shifted by `3`. -/
theorem C10_add_offset_frame_witness :
    ∃ c' : Change, Change.add_offset ⟨⟨5, 6⟩, ['a', 'b']⟩ 3 = some c' ∧
      c'.insert = (⟨⟨5, 6⟩, ['a', 'b']⟩ : Change).insert ∧
      (c'.delete.start : Int) = ((⟨5, 6⟩ : TextRange).start : Int) + 3 ∧
      (c'.delete.«end» : Int) = ((⟨5, 6⟩ : TextRange).«end» : Int) + 3 ∧
      c'.delete.len = (⟨5, 6⟩ : TextRange).len ∧
      c'.offset = (⟨⟨5, 6⟩, ['a', 'b']⟩ : Change).offset :=
  C10_add_offset_frame ⟨⟨5, 6⟩, ['a', 'b']⟩ 3 (by decide) (by decide) (by decide)

/-- The sort key of `check_disjoint_impl`:
`(change.delete.start(), change.delete.end())`. -/
def changeKey (c : Change) : Nat × Nat := (c.delete.start, c.delete.«end»)

/-- The order `sort_by_key` sorts by: the lexicographic (tuple) order on the
keys. -/
def changeLE (a b : Change) : Prop :=
  a.delete.start < b.delete.start ∨
    (a.delete.start = b.delete.start ∧ a.delete.«end» ≤ b.delete.«end»)

instance : DecidableRel changeLE := fun a b =>
  inferInstanceAs (Decidable (_ ∨ _))

instance : IsTotal Change changeLE :=
  ⟨fun a b => by unfold changeLE; omega⟩

instance : IsTrans Change changeLE :=
  ⟨fun _ _ _ h1 h2 => by unfold changeLE at h1 h2 ⊢; omega⟩

/-- The stable sort of `Vec::sort_by_key`, modelled as an insertion sort
(stable: an element is inserted behind every earlier element whose key is
not greater). -/
def sortChanges (l : List Change) : List Change :=
  l.insertionSort changeLE

/-- The adjacent-disjointness check of `check_disjoint_impl`:
`changes.iter().zip(changes.iter().skip(1)).all(|(l, r)| l.delete.end() <= r.delete.start())`. -/
def disjointAdjacent (cs : List Change) : Bool :=
  (cs.zip (cs.drop 1)).all fun p => decide (p.1.delete.«end» ≤ p.2.delete.start)

/-- `ChangeSetBuilder` of `change.rs`: accumulates changes unchecked. -/
structure ChangeSetBuilder where
  changes : List Change
deriving DecidableEq

/-- `ChangeSet` of `change.rs`. -/
structure ChangeSet where
  changes : List Change
deriving DecidableEq

/-- `ChangeSetBuilder::build_unchecked()`: no sort, no check. -/
def ChangeSetBuilder.build_unchecked (b : ChangeSetBuilder) : ChangeSet :=
  ⟨b.changes⟩

/-- `ChangeSetBuilder::build()`: `assert_disjoint` stable-sorts the changes
by `(delete.start, delete.end)` and panics unless every adjacent pair in
sorted order satisfies `prev.delete.end <= next.delete.start`; then
`build_unchecked` wraps the (sorted in place) changes. -/
def ChangeSetBuilder.build (b : ChangeSetBuilder) : Option ChangeSet :=
  if disjointAdjacent (sortChanges b.changes) then
    some (ChangeSetBuilder.build_unchecked ⟨sortChanges b.changes⟩)
  else none

/-- `ChangeSet::apply`'s loop: for each change, re-anchor it by the running
offset, apply it, and add the change's own `offset()` to the running
offset. -/
def applyChanges : List Change → Int → List Char → Option (List Char)
  | [], _, text => some text
  | c :: rest, offset, text =>
    match c.add_offset offset with
    | none => none
    | some c1 =>
      match c1.apply text with
      | none => none
      | some text1 => applyChanges rest (offset + c.offset) text1

/-- `ChangeSet::apply(text)`: the running offset starts at `0`. -/
def ChangeSet.apply (cs : ChangeSet) (text : List Char) : Option (List Char) :=
  applyChanges cs.changes 0 text

theorem filter_key_orderedInsert (c : Change) (l : List Change) (k : Nat × Nat) :
    (List.orderedInsert changeLE c l).filter (fun x => decide (changeKey x = k)) =
      if changeKey c = k then
        c :: l.filter (fun x => decide (changeKey x = k))
      else l.filter (fun x => decide (changeKey x = k)) := by
  induction l with
  | nil =>
    simp only [List.orderedInsert, List.filter_cons, List.filter_nil,
      decide_eq_true_eq]
  | cons d ds ih =>
    simp only [List.orderedInsert]
    by_cases hcd : changeLE c d
    · rw [if_pos hcd]
      simp only [List.filter_cons, decide_eq_true_eq]
    · rw [if_neg hcd]
      simp only [List.filter_cons, decide_eq_true_eq, ih]
      by_cases hc : changeKey c = k
      · by_cases hd : changeKey d = k
        · exfalso
          apply hcd
          have hkey : changeKey c = changeKey d := hc.trans hd.symm
          unfold changeKey at hkey
          simp only [Prod.mk.injEq] at hkey
          unfold changeLE
          omega
        · simp [hc, hd]
      · by_cases hd : changeKey d = k <;> simp [hc, hd]

/-- Stability of the sort: elements sharing one sort key keep their relative
order. -/
theorem filter_key_sortChanges (l : List Change) (k : Nat × Nat) :
    (sortChanges l).filter (fun x => decide (changeKey x = k)) =
      l.filter (fun x => decide (changeKey x = k)) := by
  induction l with
  | nil => rfl
  | cons c cs ih =>
    unfold sortChanges at ih ⊢
    simp only [List.insertionSort]
    rw [filter_key_orderedInsert]
    simp only [List.filter_cons, decide_eq_true_eq, ih]

/-- The zip-with-skip-one check is the adjacent-pair chain condition. -/
theorem disjointAdjacent_iff_chain (l : List Change) :
    disjointAdjacent l = true ↔
      List.Chain' (fun x y => x.delete.«end» ≤ y.delete.start) l := by
  induction l with
  | nil => simp [disjointAdjacent]
  | cons x t ih =>
    cases t with
    | nil => simp [disjointAdjacent]
    | cons y t2 =>
      have ih' : (List.zip (y :: t2) t2).all
            (fun p => decide (p.1.delete.«end» ≤ p.2.delete.start)) = true ↔
          List.Chain' (fun a b => a.delete.«end» ≤ b.delete.start) (y :: t2) := by
        simpa [disjointAdjacent] using ih
      simp only [disjointAdjacent, List.drop_succ_cons, List.drop_zero,
        List.zip_cons_cons, List.all_cons, Bool.and_eq_true, decide_eq_true_eq,
        List.chain'_cons]
      exact and_congr Iff.rfl ih'

/-- C3: `build()` stable-sorts by `(delete.start, delete.end)` and fails
exactly when some adjacent pair of the sorted sequence overlaps (succeeds
exactly when `prev.delete.end ≤ next.delete.start` holds along the sorted
sequence); on two changes both deleting `[5,6)` it fails, while
`build_unchecked()` validates nothing and keeps the supplied order. -/
theorem C3_build_sorts_and_rejects_overlap :
    (∀ b : ChangeSetBuilder,
        (b.build = none ↔ disjointAdjacent (sortChanges b.changes) = false) ∧
        (b.build = some (ChangeSetBuilder.build_unchecked ⟨sortChanges b.changes⟩) ↔
          List.Chain' (fun x y => x.delete.«end» ≤ y.delete.start)
            (sortChanges b.changes))) ∧
    (∀ l : List Change, List.Sorted changeLE (sortChanges l)) ∧
    (∀ l : List Change, (sortChanges l).Perm l) ∧
    (∀ (l : List Change) (k : Nat × Nat),
        (sortChanges l).filter (fun x => decide (changeKey x = k)) =
          l.filter (fun x => decide (changeKey x = k))) ∧
    ChangeSetBuilder.build
        ⟨[⟨⟨5, 6⟩, "asdfasdf".toList⟩, ⟨⟨5, 6⟩, "x".toList⟩]⟩ = none ∧
    ChangeSetBuilder.build_unchecked
        ⟨[⟨⟨5, 6⟩, "asdfasdf".toList⟩, ⟨⟨5, 6⟩, "x".toList⟩]⟩ =
      ⟨[⟨⟨5, 6⟩, "asdfasdf".toList⟩, ⟨⟨5, 6⟩, "x".toList⟩]⟩ := by
  refine ⟨?_, fun l => List.sorted_insertionSort changeLE l,
    fun l => List.perm_insertionSort changeLE l, filter_key_sortChanges,
    by decide, rfl⟩
  intro b
  unfold ChangeSetBuilder.build
  by_cases h : disjointAdjacent (sortChanges b.changes) = true
  · rw [if_pos h]
    exact ⟨by simp [h], iff_of_true rfl ((disjointAdjacent_iff_chain _).mp h)⟩
  · rw [if_neg h]
    refine ⟨?_, ?_⟩
    · simp only [Bool.not_eq_true] at h
      exact iff_of_true rfl h
    · refine iff_of_false (by simp) ?_
      intro hch
      exact h ((disjointAdjacent_iff_chain _).mpr hch)

/-- C4: `ChangeSet::apply` threads a running signed offset, starting at `0`,
through the changes — re-anchor by `add_offset`, apply, then add the
change's own `offset()` — and hence the `build()` of
`{(5,6,"   "), (0,0,"prefix "), (0,0,"another ")}` applied to
`"hello world!"` yields `"prefix another hello   world!"`. -/
theorem C4_apply_offset_threading_scenario :
    (∀ (c : Change) (rest : List Change) (offset : Int) (text : List Char),
        applyChanges (c :: rest) offset text =
          match c.add_offset offset with
          | none => none
          | some c1 =>
            match c1.apply text with
            | none => none
            | some text1 => applyChanges rest (offset + c.offset) text1) ∧
    (∀ (cs : ChangeSet) (text : List Char),
        cs.apply text = applyChanges cs.changes 0 text) ∧
    (ChangeSetBuilder.build
        ⟨[⟨⟨5, 6⟩, "   ".toList⟩, ⟨⟨0, 0⟩, "prefix ".toList⟩,
          ⟨⟨0, 0⟩, "another ".toList⟩]⟩).bind
      (fun cs => cs.apply "hello world!".toList) =
      some "prefix another hello   world!".toList := by
  exact ⟨fun c rest offset text => rfl, fun cs text => rfl, by decide⟩

/-- The generational key of the marked-range arena
(`slotmap::new_key_type! { pub struct MarkedRangeId; }`): a slot index and
the generation stored in the slot when the key was handed out. -/
structure MarkedRangeId where
  idx : Nat
  gen : Nat
deriving DecidableEq

/-- Modelled from the spec: the `slotmap::HopSlotMap` arena backing
`MarkedRanges` (the `slotmap` crate is not among the sources).  Each slot
carries a generation counter and an optional live value; per the spec a
stale id — one whose entry was removed — is distinguishable from a live one,
and lookups on it report absence, never wrong data. -/
structure SlotMap where
  slots : List (Nat × Option TextRange)
deriving DecidableEq

/-- Modelled from the spec: insertion allocates a slot and returns its
generational key. -/
def SlotMap.insert (m : SlotMap) (r : TextRange) : SlotMap × MarkedRangeId :=
  (⟨m.slots ++ [(1, some r)]⟩, ⟨m.slots.length, 1⟩)

/-- Modelled from the spec: lookup fails when the stored generation does not
match the key's or when the slot is no longer live. -/
def SlotMap.get (m : SlotMap) (id : MarkedRangeId) : Option TextRange :=
  match m.slots.get? id.idx with
  | some (g, v) => if g = id.gen then v else none
  | none => none

/-- Modelled from the spec: removal empties the slot and bumps its
generation, so the removed key goes permanently stale; removing an already
stale key is a no-op returning `none`. -/
def SlotMap.remove (m : SlotMap) (id : MarkedRangeId) : SlotMap × Option TextRange :=
  match m.get id with
  | some r => (⟨m.slots.set id.idx (id.gen + 1, none)⟩, some r)
  | none => (m, none)

/-- Modelled from the spec: `keys()` lists the live keys in slot order. -/
def SlotMap.keys (m : SlotMap) : List MarkedRangeId :=
  m.slots.enum.filterMap fun p =>
    if p.2.2.isSome then some ⟨p.1, p.2.1⟩ else none

/-- `MarkedRanges` of `marked_range.rs`: the shared arena, the cached
ordering of ids, and the two lazy dirty flags. -/
structure MarkedRanges where
  slotmap : SlotMap
  sorted : List MarkedRangeId
  should_sort : Bool
  should_reset : Bool
deriving DecidableEq

/-- `MarkedRanges::default()`. -/
def MarkedRanges.init : MarkedRanges := ⟨⟨[]⟩, [], false, false⟩

/-- `MarkedRanges::insert`: allocate, append the id to the cached ordering,
mark `should_sort` (and only it). -/
def MarkedRanges.insert (m : MarkedRanges) (r : TextRange) :
    MarkedRanges × MarkedRangeId :=
  match m.slotmap.insert r with
  | (sm, id) =>
    (⟨sm, m.sorted ++ [id], true, m.should_reset⟩, id)

/-- `MarkedRanges::remove`: `slotmap.remove(id)?` — on a stale id nothing
changes and `None` is returned; on success both dirty flags are set. -/
def MarkedRanges.remove (m : MarkedRanges) (id : MarkedRangeId) :
    MarkedRanges × Option TextRange :=
  match m.slotmap.remove id with
  | (sm, some r) => (⟨sm, m.sorted, true, true⟩, some r)
  | (_, none) => (m, none)

/-- The order `sort_unstable_by_key(|id| slotmap.get(*id).unwrap())` sorts
by: the range lexicographically by `(start, end)`.  Modelled from the spec
(`iter()` produces pairs in ascending range order; the `Ord` used by the
source is re-exported outside the sources). -/
def rangeLE (p q : MarkedRangeId × TextRange) : Prop :=
  p.2.start < q.2.start ∨
    (p.2.start = q.2.start ∧ p.2.«end» ≤ q.2.«end»)

instance : DecidableRel rangeLE := fun p q =>
  inferInstanceAs (Decidable (_ ∨ _))

/-- `MarkedRanges::invariants`: rebuild the cached ordering from the live
keys when `should_reset` is pending; sort it by each id's current range when
`should_sort` is pending (`slotmap.get(*id).unwrap()` — a panic on an
unresolvable id); clear both flags. -/
def MarkedRanges.invariants (m : MarkedRanges) : Option MarkedRanges :=
  if m.should_sort then
    match (if m.should_reset then m.slotmap.keys else m.sorted).mapM
        (fun id => (m.slotmap.get id).map fun r => (id, r)) with
    | some pairs =>
      some ⟨m.slotmap, (pairs.insertionSort rangeLE).map Prod.fst, false, false⟩
    | none => none
  else
    some ⟨m.slotmap,
      if m.should_reset then m.slotmap.keys else m.sorted, false, false⟩

/-- The pair sequence `iter()` produces after `invariants` has run: each
cached id looked up in the arena, ids that no longer resolve silently
skipped. -/
def MarkedRanges.view (m : MarkedRanges) : List (MarkedRangeId × TextRange) :=
  m.sorted.filterMap fun id => (m.slotmap.get id).map fun r => (id, r)

/-- `MarkedRanges::iter()`: resolve the pending invariants, then produce the
`(id, range)` pairs.  The mutated tracker is returned alongside the
sequence. -/
def MarkedRanges.iter (m : MarkedRanges) :
    Option (MarkedRanges × List (MarkedRangeId × TextRange)) :=
  m.invariants.map fun m1 => (m1, m1.view)

theorem MarkedRanges.invariants_clears_flags {m m' : MarkedRanges}
    (h : m.invariants = some m') :
    m'.should_sort = false ∧ m'.should_reset = false := by
  unfold MarkedRanges.invariants at h
  split at h
  · split at h
    · injection h with h
      subst h
      exact ⟨rfl, rfl⟩
    · exact Option.noConfusion h
  · injection h with h
    subst h
    exact ⟨rfl, rfl⟩

theorem MarkedRanges.invariants_of_clean {m : MarkedRanges}
    (hs : m.should_sort = false) (hr : m.should_reset = false) :
    m.invariants = some m := by
  obtain ⟨sm, so, f1, f2⟩ := m
  simp only at hs hr
  subst hs
  subst hr
  rfl

/-- The tracker state after inserting `[10,20)`, `[0,5)`, `[30,31)` in that
order into a fresh tracker. -/
def c7state : MarkedRanges :=
  (((MarkedRanges.init.insert ⟨10, 20⟩).1.insert ⟨0, 5⟩).1.insert ⟨30, 31⟩).1

/-- C7: inserting `[10,20)`, `[0,5)`, `[30,31)` in that order, `iter()`
yields the three pairs in ascending range order; removing the id of
`[10,20)` returns that range, after which `iter()` yields only the other
two, and lookup or removal of the removed id reports absence. -/
theorem C7_marked_ranges_scenario :
    (MarkedRanges.init.insert ⟨10, 20⟩).2 = ⟨0, 1⟩ ∧
    c7state.iter.map (fun pr => pr.2) =
      some [(⟨1, 1⟩, ⟨0, 5⟩), (⟨0, 1⟩, ⟨10, 20⟩), (⟨2, 1⟩, ⟨30, 31⟩)] ∧
    (c7state.iter.map fun pr => (pr.1.remove ⟨0, 1⟩).2) =
      some (some ⟨10, 20⟩) ∧
    (c7state.iter.bind fun pr =>
        ((pr.1.remove ⟨0, 1⟩).1.iter).map fun pr2 => pr2.2) =
      some [(⟨1, 1⟩, ⟨0, 5⟩), (⟨2, 1⟩, ⟨30, 31⟩)] ∧
    (c7state.iter.bind fun pr =>
        ((pr.1.remove ⟨0, 1⟩).1.iter).map fun pr2 =>
          (pr2.1.slotmap.get ⟨0, 1⟩, (pr2.1.remove ⟨0, 1⟩).2)) =
      some (none, none) := by
  exact ⟨by decide, by decide, by decide, by decide, by decide⟩

/-- C8: when `iter()` succeeds it clears both dirty flags, so an immediately
repeated `iter()` returns the same sequence and the very same tracker state
(no re-sort, no rebuild). -/
theorem C8_iter_idempotent (m m1 : MarkedRanges)
    (l : List (MarkedRangeId × TextRange))
    (h : m.iter = some (m1, l)) :
    m1.iter = some (m1, l) ∧
    m1.should_sort = false ∧ m1.should_reset = false := by
  unfold MarkedRanges.iter at h ⊢
  rw [Option.map_eq_some'] at h
  obtain ⟨m', hinv, heq⟩ := h
  injection heq with e1 e2
  subst e1
  subst e2
  obtain ⟨hs, hr⟩ := MarkedRanges.invariants_clears_flags hinv
  rw [MarkedRanges.invariants_of_clean hs hr]
  exact ⟨rfl, hs, hr⟩

/-- C8 witness: the idempotence at the concrete tracker obtained by
inserting `[3,7)` into a fresh tracker. -/
theorem C8_iter_idempotent_witness :
    (⟨⟨[(1, some ⟨3, 7⟩)]⟩, [⟨0, 1⟩], false, false⟩ : MarkedRanges).iter =
      some (⟨⟨[(1, some ⟨3, 7⟩)]⟩, [⟨0, 1⟩], false, false⟩,
        [(⟨0, 1⟩, ⟨3, 7⟩)]) ∧
    (⟨⟨[(1, some ⟨3, 7⟩)]⟩, [⟨0, 1⟩], false, false⟩ : MarkedRanges).should_sort
      = false ∧
    (⟨⟨[(1, some ⟨3, 7⟩)]⟩, [⟨0, 1⟩], false, false⟩ : MarkedRanges).should_reset
      = false :=
  C8_iter_idempotent (MarkedRanges.init.insert ⟨3, 7⟩).1
    ⟨⟨[(1, some ⟨3, 7⟩)]⟩, [⟨0, 1⟩], false, false⟩
    [(⟨0, 1⟩, ⟨3, 7⟩)] (by decide)

end Helix
